import Mathlib
/-!
Shallow embedding of `src/shift_generate.py` (function `generate_shifts`).
The Python function builds a PuLP linear program:
  * binary variables `shifts[(employee, day, shift_type)]` for every employee and
    every slot `(day, shift_type)` with `day ∈ 1..30`, `shift_type ∈ {Morning, Evening}`;
  * continuous variables `shortages[(day, shift_type)]` with lower bound 0;
  * objective (minimize): `sum(shortages) - sum(shifts[e, slot] for slot ∈ desired_shifts[e])`;
  * coverage constraints `sum(shifts[e, slot] for e) + shortages[slot] >= required_shifts[day][shift_type]`;
  * preference constraints `shifts[e, slot] == 0` for every `slot ∉ desired_shifts[e]`;
then solves and extracts two tables (a pivoted assignment table and a shortage table).
The embedding represents the linear program syntactically (lists of
coefficient/variable terms), the solver as a black box that delivers a variable
valuation, feasibility/optimality as predicates on valuations, and the pandas
extraction step as list computations.  Dictionary lookups that can raise
`KeyError` in Python (`desired_shifts[employee]`, `required_shifts[day][shift_type]`)
are modelled with `Option`: the model builder returns `none` exactly when some
lookup the Python code performs would fail.
-/

/-! ## Definitions -/

inductive ShiftType
  | Morning
  | Evening
deriving DecidableEq, Repr

/-- Days are the Python ints; the scheduling grid uses `range(1, 31)`. -/
abbrev Day := Nat

/-- Employees are opaque identifiers (Python uses them as dict keys / strings). -/
abbrev Employee := String

/-- A shift slot: `(day, shift_type)`. -/
abbrev Slot := Day × ShiftType

/-- `range(1, 31)` from the Python loops. -/
def days : List Day := List.range' 1 30

/-- Shift types in the order of the Python loops: Morning, then Evening. -/
def shiftTypes : List ShiftType := [ShiftType.Morning, ShiftType.Evening]

/-- The 60 slots, in the iteration order of the Python nested loops
(day outer, shift type inner). -/
def slotList : List Slot := days.flatMap (fun d => shiftTypes.map (fun st => (d, st)))

/-- The LP variables created by `generate_shifts`: one binary variable per
`(employee, day, shift_type)` and one continuous shortage variable per slot. -/
inductive Var
  | shift (e : Employee) (d : Day) (st : ShiftType)
  | shortage (d : Day) (st : ShiftType)
deriving DecidableEq, Repr

/-- A linear constraint `terms (= | >=) rhs`; `isEq = true` for `==`,
`isEq = false` for `>=`, matching the two constraint forms the Python code adds. -/
structure Constraint where
  terms : List (ℚ × Var)
  isEq : Bool
  rhs : ℚ
deriving DecidableEq, Repr

/-- The model handed to the solver: a linear objective (minimized) and the
constraint list, in construction order. -/
structure Problem where
  objective : List (ℚ × Var)
  constraints : List Constraint
deriving DecidableEq, Repr

/-- Terms of `pulp.lpSum([shortages[(day, shift_type)] ...])` (line 32). -/
def shortTerms : List (ℚ × Var) :=
  slotList.map (fun t => ((1 : ℚ), Var.shortage t.1 t.2))

/-- Terms of `- pulp.lpSum([shifts[(employee, day, shift_type)] ... if (day, shift_type)
in desired_shifts[employee]])` (line 33), employee outer / day / shift type inner. -/
def desiredTermsOf (employees : List Employee) (ds : Employee → List Slot) :
    List (ℚ × Var) :=
  employees.flatMap (fun e =>
    (slotList.filter (fun t => t ∈ ds e)).map (fun t => ((-1 : ℚ), Var.shift e t.1 t.2)))

/-- The objective of line 32–33: shortage sum minus desired-assignment sum. -/
def objTermsOf (employees : List Employee) (ds : Employee → List Slot) :
    List (ℚ × Var) :=
  shortTerms ++ desiredTermsOf employees ds

/-- The coverage constraint of line 39 for one slot. -/
def coverageConstr (employees : List Employee) (req : Slot → ℚ) (t : Slot) : Constraint :=
  ⟨employees.map (fun e => ((1 : ℚ), Var.shift e t.1 t.2)) ++ [((1 : ℚ), Var.shortage t.1 t.2)],
   false, req t⟩

/-- The preference-lock constraint of line 46 for one undesired `(employee, slot)`. -/
def prefConstr (e : Employee) (t : Slot) : Constraint :=
  ⟨[((1 : ℚ), Var.shift e t.1 t.2)], true, 0⟩

/-- Lines 42–46: one equality constraint per `(employee, slot)` with
`slot ∉ desired_shifts[employee]` (employee outer, day, shift type inner). -/
def prefConstrsOf (employees : List Employee) (ds : Employee → List Slot) :
    List Constraint :=
  employees.flatMap (fun e =>
    (slotList.filter (fun t => ¬ t ∈ ds e)).map (fun t => prefConstr e t))

/-- All constraints in the order the Python code adds them:
coverage (lines 36–39), then preference locks (lines 42–46). -/
def constrsOf (employees : List Employee) (ds : Employee → List Slot) (req : Slot → ℚ) :
    List Constraint :=
  slotList.map (coverageConstr employees req) ++ prefConstrsOf employees ds

/-- `required_shifts[day][shift_type]`: both lookups can fail (KeyError). -/
def lookupReq (required : Day → Option (ShiftType → Option ℚ)) (t : Slot) : Option ℚ :=
  match required t.1 with
  | none => none
  | some row => row t.2

/-- Model construction (lines 19–46).  The Python code performs
`desired_shifts[employee]` for every employee in `employees` (line 33 and line 45)
and `required_shifts[day][shift_type]` for all 60 slots (line 39); a missing key
raises `KeyError`, modelled as `none`.  When all lookups succeed the built model
uses the looked-up values. -/
def buildProblem (employees : List Employee) (desired : Employee → Option (List Slot))
    (required : Day → Option (ShiftType → Option ℚ)) : Option Problem :=
  if employees.all (fun e => (desired e).isSome) &&
     slotList.all (fun t => (lookupReq required t).isSome) then
    some ⟨objTermsOf employees (fun e => (desired e).getD []),
          constrsOf employees (fun e => (desired e).getD [])
            (fun t => (lookupReq required t).getD 0)⟩
  else
    none

/-- Value of a linear expression under a variable valuation. -/
def evalTerms (sol : Var → ℚ) (terms : List (ℚ × Var)) : ℚ :=
  (terms.map (fun p => p.1 * sol p.2)).sum

/-- A valuation satisfies a constraint (`==` when `isEq`, `>=` otherwise). -/
def satisfies (sol : Var → ℚ) (c : Constraint) : Prop :=
  (c.isEq = true → evalTerms sol c.terms = c.rhs) ∧
  (c.isEq = false → c.rhs ≤ evalTerms sol c.terms)

instance (sol : Var → ℚ) (c : Constraint) : Decidable (satisfies sol c) := by
  unfold satisfies; infer_instance

/-- Feasibility: all constraints hold, every created assignment variable is
binary (declared with category Binary, line 28), every shortage variable is
nonnegative (declared with lower bound 0, line 26). -/
def Feasible (employees : List Employee) (prob : Problem) (sol : Var → ℚ) : Prop :=
  (∀ c ∈ prob.constraints, satisfies sol c) ∧
  (∀ e ∈ employees, ∀ t ∈ slotList,
    sol (Var.shift e t.1 t.2) = 0 ∨ sol (Var.shift e t.1 t.2) = 1) ∧
  (∀ t ∈ slotList, 0 ≤ sol (Var.shortage t.1 t.2))

instance (employees : List Employee) (prob : Problem) (sol : Var → ℚ) :
    Decidable (Feasible employees prob sol) := by
  unfold Feasible; infer_instance

/-- The solver contract (`prob.solve()`, line 49): the returned valuation is
feasible and minimizes the objective among feasible valuations. -/
def Optimal (employees : List Employee) (prob : Problem) (sol : Var → ℚ) : Prop :=
  Feasible employees prob sol ∧
  ∀ s : Var → ℚ, Feasible employees prob s →
    evalTerms sol prob.objective ≤ evalTerms s prob.objective

/-- Slot labels of lines 52 and 61: the day, a hyphen, and the shift type name. -/
def shiftName : ShiftType → String
  | ShiftType.Morning => "Morning"
  | ShiftType.Evening => "Evening"

def slotLabel (t : Slot) : String := toString t.1 ++ "-" ++ shiftName t.2

/-- Sum of the assignment values of one slot over the employee list
(the lhs sum of the coverage constraint, and the per-slot column sum of the
returned table). -/
def assignedSum (employees : List Employee) (sol : Var → ℚ) (t : Slot) : ℚ :=
  (employees.map (fun e => sol (Var.shift e t.1 t.2))).sum

/-- The entries of the `shifts` dict in insertion order: `(day, shift_type)`
outer (lines 24–25), employee inner (line 27).  Python dict keys are unique, so
a duplicated employee name yields one entry; `dedup` models that. -/
def assignEntries (employees : List Employee) (sol : Var → ℚ) :
    List (Employee × Slot × ℚ) :=
  slotList.flatMap (fun t => employees.dedup.map (fun e => (e, t, sol (Var.shift e t.1 t.2))))

/-- `shifts_data` (line 52): keep entries with non-zero solved value, labelled. -/
def shiftsData (employees : List Employee) (sol : Var → ℚ) :
    List (Employee × String × ℚ) :=
  ((assignEntries employees sol).filter (fun r => r.2.2 ≠ 0)).map
    (fun r => (r.1, slotLabel r.2.1, r.2.2))

/-- Row index of the pivot table (line 58): the employees occurring in
`shifts_data`. -/
def pivotRows (employees : List Employee) (sol : Var → ℚ) : List Employee :=
  ((shiftsData employees sol).map (fun r => r.1)).dedup

/-- Column labels of the pivot table (line 58): the labels occurring in
`shifts_data`. -/
def pivotCols (employees : List Employee) (sol : Var → ℚ) : List String :=
  ((shiftsData employees sol).map (fun r => r.2.1)).dedup

/-- Cell of the pivot table for a row employee and a column label: the recorded
value if `shifts_data` has an entry with that key, the `fill_value=0` otherwise.
`(employee, label)` keys occur at most once in `shifts_data`, so the first match
is the aggregated (mean) value pandas computes. -/
def pivotCell (employees : List Employee) (sol : Var → ℚ) (e : Employee) (lab : String) : ℚ :=
  (((shiftsData employees sol).find? (fun r => r.1 == e && r.2.1 == lab)).map
    (fun r => r.2.2)).getD 0

/-- `shortages_data` (line 61): one labelled row per slot with non-zero solved
shortage, in slot order. -/
def shortagesData (sol : Var → ℚ) : List (String × ℚ) :=
  ((slotList.map (fun t => (t, sol (Var.shortage t.1 t.2)))).filter
    (fun r => r.2 ≠ 0)).map (fun r => (slotLabel r.1, r.2))

/-- The two returned tables (line 64): the pivoted assignment table and the
shortage table. -/
structure Result where
  rows : List Employee
  cols : List String
  cell : Employee → String → ℚ
  shortTable : List (String × ℚ)

/-- End-to-end `generate_shifts`: build the model, hand it to the (black box)
solver, extract the two tables.  Fails (`none`) exactly when a dict lookup
fails; otherwise the tables are computed from the valuation the solver returns. -/
def generateShifts (employees : List Employee) (desired : Employee → Option (List Slot))
    (required : Day → Option (ShiftType → Option ℚ))
    (solver : Problem → (Var → ℚ)) : Option Result :=
  (buildProblem employees desired required).map (fun prob =>
    let sol := solver prob
    ⟨pivotRows employees sol, pivotCols employees sol,
     pivotCell employees sol, shortagesData sol⟩)

/-- Desired set an employee maps to, once the lookup is known to succeed. -/
def dsD (desired : Employee → Option (List Slot)) (e : Employee) : List Slot :=
  (desired e).getD []

/-- Required coverage of a slot, once the lookup is known to succeed. -/
def reqD (required : Day → Option (ShiftType → Option ℚ)) (t : Slot) : ℚ :=
  (lookupReq required t).getD 0

/-- Shortage part of the objective value: the sum of all shortage variables. -/
def shortSumOf (sol : Var → ℚ) : ℚ :=
  (slotList.map (fun t => sol (Var.shortage t.1 t.2))).sum

/-- Preference part of the objective value: the sum of the assignment variables
whose slot lies in the desired set of their employee. -/
def desiredSumOf (employees : List Employee) (ds : Employee → List Slot)
    (sol : Var → ℚ) : ℚ :=
  (employees.map (fun e =>
    ((slotList.filter (fun t => t ∈ ds e)).map (fun t => sol (Var.shift e t.1 t.2))).sum)).sum

/-- Semantic form of feasibility for the built model: coverage inequalities,
preference locks, binary domains, nonnegative shortages. -/
def FeasibleSem (employees : List Employee) (ds : Employee → List Slot)
    (req : Slot → ℚ) (sol : Var → ℚ) : Prop :=
  (∀ t ∈ slotList, req t ≤ assignedSum employees sol t + sol (Var.shortage t.1 t.2)) ∧
  (∀ e ∈ employees, ∀ t ∈ slotList, t ∉ ds e → sol (Var.shift e t.1 t.2) = 0) ∧
  (∀ e ∈ employees, ∀ t ∈ slotList,
    sol (Var.shift e t.1 t.2) = 0 ∨ sol (Var.shift e t.1 t.2) = 1) ∧
  (∀ t ∈ slotList, 0 ≤ sol (Var.shortage t.1 t.2))

def employees1 : List Employee := ["A"]

def desired1 : Employee → Option (List Slot) := fun _ => some [(1, ShiftType.Morning)]

/-- Required coverage 0 for every day and both shift types. -/
def required0 : Day → Option (ShiftType → Option ℚ) := fun _ => some (fun _ => some 0)

def prob1 : Problem :=
  ⟨objTermsOf employees1 (dsD desired1), constrsOf employees1 (dsD desired1) (reqD required0)⟩

/-- Valuation: the one employee works day-1 Morning, nothing else, no shortage. -/
def sol1 : Var → ℚ := fun v =>
  match v with
  | Var.shift e d st => if e = "A" ∧ d = 1 ∧ st = ShiftType.Morning then 1 else 0
  | Var.shortage _ _ => 0

def employees5 : List Employee := ["A", "B"]

def desired5 : Employee → Option (List Slot) := fun e =>
  if e = "A" then some [(1, ShiftType.Morning)] else some []

def prob5 : Problem :=
  ⟨objTermsOf employees5 (dsD desired5), constrsOf employees5 (dsD desired5) (reqD required0)⟩

def desired6 : Employee → Option (List Slot) := fun _ => some []

def prob6 : Problem :=
  ⟨objTermsOf employees1 (dsD desired6), constrsOf employees1 (dsD desired6) (reqD required0)⟩

/-- Valuation assigning 0 to every variable. -/
def sol0 : Var → ℚ := fun _ => 0

def morningSlots : List Slot := days.map (fun d => (d, ShiftType.Morning))

def desired7 : Employee → Option (List Slot) := fun _ => some morningSlots

/-- Required coverage 1 for every day and both shift types. -/
def required1 : Day → Option (ShiftType → Option ℚ) := fun _ => some (fun _ => some 1)

def prob7 : Problem :=
  ⟨objTermsOf employees1 (dsD desired7), constrsOf employees1 (dsD desired7) (reqD required1)⟩

/-- Valuation: the employee works every Morning slot; every Evening slot is
short by one. -/
def sol7 : Var → ℚ := fun v =>
  match v with
  | Var.shift _ _ st => if st = ShiftType.Morning then 1 else 0
  | Var.shortage _ st => if st = ShiftType.Evening then 1 else 0

/-- Desired map with no entry for any employee: every lookup fails. -/
def desiredNone : Employee → Option (List Slot) := fun _ => none

/-- Desired map agreeing with the day-1 Morning map on the grid but holding
an extra out-of-grid entry for day 31. -/
def desired10 : Employee → Option (List Slot) := fun _ =>
  some [(1, ShiftType.Morning), (31, ShiftType.Morning)]

/-! ## Theorems -/

theorem listSum_map_const {α : Type} (l : List α) (c : ℚ) :
    (l.map (fun _ => c)).sum = (l.length : ℚ) * c := by
  induction l with
  | nil => simp
  | cons a l ih => simp [ih]; ring

theorem listSum_map_ite {α : Type} (l : List α) (p : α → Prop) [DecidablePred p]
    (c d : ℚ) :
    (l.map (fun a => if p a then c else d)).sum =
      ((l.filter (fun a => p a)).length : ℚ) * c +
      ((l.filter (fun a => ¬ p a)).length : ℚ) * d := by
  induction l with
  | nil => simp
  | cons a l ih =>
    by_cases h : p a <;> simp [h, ih] <;> ring

theorem listSum_map_neg {α : Type} (l : List α) (f : α → ℚ) :
    (l.map (fun a => -f a)).sum = -(l.map f).sum := by
  induction l with
  | nil => simp
  | cons a l ih => simp [ih]; ring

theorem listSum_map_sub {α : Type} (l : List α) (f g : α → ℚ) :
    (l.map (fun a => f a - g a)).sum = (l.map f).sum - (l.map g).sum := by
  induction l with
  | nil => simp
  | cons a l ih => simp [ih]; ring

theorem listSum_filter_map {α : Type} (l : List α) (p : α → Prop) [DecidablePred p]
    (f : α → ℚ) :
    ((l.filter (fun a => p a)).map f).sum = (l.map (fun a => if p a then f a else 0)).sum := by
  induction l with
  | nil => simp
  | cons a l ih =>
    by_cases h : p a <;> simp [h, ih]

theorem listSum_eq_zero_of_nonneg {α : Type} (l : List α) (f : α → ℚ)
    (h0 : ∀ x ∈ l, 0 ≤ f x) (hs : (l.map f).sum ≤ 0) : ∀ x ∈ l, f x = 0 := by
  induction l with
  | nil => simp
  | cons a l ih =>
    have ha : 0 ≤ f a := h0 a (by simp)
    have hl : 0 ≤ (l.map f).sum := by
      refine List.sum_nonneg ?_
      intro x hx
      obtain ⟨b, hb, rfl⟩ := List.mem_map.mp hx
      exact h0 b (by simp [hb])
    have hsum : f a + (l.map f).sum ≤ 0 := by simpa using hs
    intro x hx
    rcases List.mem_cons.mp hx with rfl | hx
    · linarith
    · exact ih (fun y hy => h0 y (by simp [hy])) (by linarith) x hx

theorem listSum_congr_one_point {α : Type} [DecidableEq α] (l : List α) (f g : α → ℚ)
    (a : α) (ha : a ∈ l) (hnd : l.Nodup)
    (hcong : ∀ x ∈ l, x ≠ a → f x = g x) :
    (l.map f).sum = (l.map g).sum + (f a - g a) := by
  induction l with
  | nil => simp at ha
  | cons b l ih =>
    rcases List.mem_cons.mp ha with heq | ha
    · subst heq
      have hnotin : a ∉ l := (List.nodup_cons.mp hnd).1
      have : ∀ x ∈ l, f x = g x := fun x hx =>
        hcong x (by simp [hx]) (fun h => hnotin (h ▸ hx))
      have hmap : l.map f = l.map g := List.map_congr_left this
      simp [hmap]; ring
    · have hba : b ≠ a := fun h => ((List.nodup_cons.mp hnd).1 (h ▸ ha))
      have hfb : f b = g b := hcong b (by simp) hba
      have := ih ha (List.nodup_cons.mp hnd).2
        (fun x hx hxa => hcong x (by simp [hx]) hxa)
      simp [hfb, this]; ring

theorem slotList_nodup : slotList.Nodup := by decide

theorem slotLabel_inj : ∀ t1 ∈ slotList, ∀ t2 ∈ slotList,
    slotLabel t1 = slotLabel t2 → t1 = t2 := by decide

theorem mem_slotList_iff (t : Slot) : t ∈ slotList ↔ t.1 ∈ days ∧ t.2 ∈ shiftTypes := by
  constructor
  · intro ht
    obtain ⟨d, hd, ht⟩ := List.mem_flatMap.mp ht
    obtain ⟨st, hst, rfl⟩ := List.mem_map.mp ht
    exact ⟨hd, hst⟩
  · rintro ⟨hd, hst⟩
    exact List.mem_flatMap.mpr ⟨t.1, hd, List.mem_map.mpr ⟨t.2, hst, rfl⟩⟩

theorem buildProblem_eq_some (employees : List Employee)
    (desired : Employee → Option (List Slot))
    (required : Day → Option (ShiftType → Option ℚ)) (prob : Problem)
    (hp : buildProblem employees desired required = some prob) :
    prob = ⟨objTermsOf employees (dsD desired), constrsOf employees (dsD desired) (reqD required)⟩ := by
  unfold buildProblem at hp
  split at hp
  · cases hp; rfl
  · cases hp

theorem buildProblem_lookups (employees : List Employee)
    (desired : Employee → Option (List Slot))
    (required : Day → Option (ShiftType → Option ℚ)) (prob : Problem)
    (hp : buildProblem employees desired required = some prob) :
    (∀ e ∈ employees, (desired e).isSome) ∧ (∀ t ∈ slotList, (lookupReq required t).isSome) := by
  unfold buildProblem at hp
  split at hp
  · next h =>
    have h' := Bool.and_eq_true_iff.mp h
    exact ⟨fun e he => List.all_eq_true.mp h'.1 e he,
           fun t ht => List.all_eq_true.mp h'.2 t ht⟩
  · cases hp

theorem buildProblem_eq_none (employees : List Employee)
    (desired : Employee → Option (List Slot))
    (required : Day → Option (ShiftType → Option ℚ))
    (h : (∃ e ∈ employees, desired e = none) ∨ (∃ t ∈ slotList, lookupReq required t = none)) :
    buildProblem employees desired required = none := by
  unfold buildProblem
  split
  · next hg =>
    exfalso
    have h' := Bool.and_eq_true_iff.mp hg
    rcases h with ⟨e, he, hnone⟩ | ⟨t, ht, hnone⟩
    · have := List.all_eq_true.mp h'.1 e he
      simp [hnone] at this
    · have := List.all_eq_true.mp h'.2 t ht
      simp [hnone] at this
  · rfl

theorem mem_constrsOf (employees : List Employee) (ds : Employee → List Slot)
    (req : Slot → ℚ) (c : Constraint) :
    c ∈ constrsOf employees ds req ↔
      (∃ t ∈ slotList, c = coverageConstr employees req t) ∨
      (∃ e ∈ employees, ∃ t ∈ slotList, t ∉ ds e ∧ c = prefConstr e t) := by
  unfold constrsOf prefConstrsOf
  simp only [List.mem_append, List.mem_map, List.mem_flatMap, List.mem_filter,
    decide_eq_true_eq]
  constructor
  · rintro (⟨t, ht, rfl⟩ | ⟨e, he, t, ⟨ht, hnd⟩, rfl⟩)
    · exact Or.inl ⟨t, ht, rfl⟩
    · exact Or.inr ⟨e, he, t, ht, hnd, rfl⟩
  · rintro (⟨t, ht, rfl⟩ | ⟨e, he, t, ht, hnd, rfl⟩)
    · exact Or.inl ⟨t, ht, rfl⟩
    · exact Or.inr ⟨e, he, t, ⟨ht, hnd⟩, rfl⟩

theorem eval_coverage (employees : List Employee) (req : Slot → ℚ) (t : Slot)
    (sol : Var → ℚ) :
    evalTerms sol (coverageConstr employees req t).terms =
      assignedSum employees sol t + sol (Var.shortage t.1 t.2) := by
  unfold evalTerms coverageConstr assignedSum
  simp only [List.map_append, List.sum_append, List.map_map]
  have h : (List.map ((fun p : ℚ × Var => p.1 * sol p.2) ∘ fun e => ((1 : ℚ), Var.shift e t.1 t.2))
      employees).sum = (List.map (fun e => sol (Var.shift e t.1 t.2)) employees).sum := by
    congr 1
    apply List.map_congr_left
    intro e _
    simp
  rw [h]
  simp

theorem satisfies_coverage_iff (employees : List Employee) (req : Slot → ℚ) (t : Slot)
    (sol : Var → ℚ) :
    satisfies sol (coverageConstr employees req t) ↔
      req t ≤ assignedSum employees sol t + sol (Var.shortage t.1 t.2) := by
  unfold satisfies
  rw [show (coverageConstr employees req t).isEq = false from rfl,
      show (coverageConstr employees req t).rhs = req t from rfl,
      eval_coverage]
  simp

theorem satisfies_pref_iff (e : Employee) (t : Slot) (sol : Var → ℚ) :
    satisfies sol (prefConstr e t) ↔ sol (Var.shift e t.1 t.2) = 0 := by
  unfold satisfies prefConstr evalTerms
  simp

theorem feasible_iff_sem (employees : List Employee) (ds : Employee → List Slot)
    (req : Slot → ℚ) (sol : Var → ℚ) :
    Feasible employees ⟨objTermsOf employees ds, constrsOf employees ds req⟩ sol ↔
      FeasibleSem employees ds req sol := by
  unfold Feasible FeasibleSem
  constructor
  · rintro ⟨hc, hb, hs⟩
    refine ⟨?_, ?_, hb, hs⟩
    · intro t ht
      have := hc (coverageConstr employees req t)
        ((mem_constrsOf employees ds req _).mpr (Or.inl ⟨t, ht, rfl⟩))
      exact (satisfies_coverage_iff employees req t sol).mp this
    · intro e he t ht hnd
      have := hc (prefConstr e t)
        ((mem_constrsOf employees ds req _).mpr (Or.inr ⟨e, he, t, ht, hnd, rfl⟩))
      exact (satisfies_pref_iff e t sol).mp this
  · rintro ⟨hcov, hpref, hb, hs⟩
    refine ⟨?_, hb, hs⟩
    intro c hc
    rcases (mem_constrsOf employees ds req c).mp hc with ⟨t, ht, rfl⟩ | ⟨e, he, t, ht, hnd, rfl⟩
    · exact (satisfies_coverage_iff employees req t sol).mpr (hcov t ht)
    · exact (satisfies_pref_iff e t sol).mpr (hpref e he t ht hnd)

theorem listSum_flatMap {α : Type} (l : List α) (f : α → List ℚ) :
    (l.flatMap f).sum = (l.map (fun a => (f a).sum)).sum := by
  induction l with
  | nil => simp
  | cons a l ih => simp [List.flatMap_cons, List.sum_append, ih]

theorem eval_objTerms (employees : List Employee) (ds : Employee → List Slot)
    (sol : Var → ℚ) :
    evalTerms sol (objTermsOf employees ds) =
      shortSumOf sol - desiredSumOf employees ds sol := by
  unfold objTermsOf evalTerms shortTerms desiredTermsOf shortSumOf desiredSumOf
  rw [List.map_append, List.sum_append, List.map_flatMap, listSum_flatMap]
  have h1 : (List.map (fun p => p.1 * sol p.2)
      (slotList.map (fun t => ((1 : ℚ), Var.shortage t.1 t.2)))).sum =
      (slotList.map (fun t => sol (Var.shortage t.1 t.2))).sum := by
    rw [List.map_map]
    congr 1
    apply List.map_congr_left
    intro t _
    simp
  have h2 : ∀ e : Employee,
      (List.map (fun p => p.1 * sol p.2)
        ((slotList.filter (fun t => t ∈ ds e)).map
          (fun t => ((-1 : ℚ), Var.shift e t.1 t.2)))).sum =
      -((slotList.filter (fun t => t ∈ ds e)).map (fun t => sol (Var.shift e t.1 t.2))).sum := by
    intro e
    rw [List.map_map, ← listSum_map_neg]
    congr 1
    apply List.map_congr_left
    intro t _
    simp
  rw [h1]
  have h3 : (employees.map (fun e =>
      (List.map (fun p => p.1 * sol p.2)
        ((slotList.filter (fun t => t ∈ ds e)).map
          (fun t => ((-1 : ℚ), Var.shift e t.1 t.2)))).sum)).sum =
      (employees.map (fun e =>
        -((slotList.filter (fun t => t ∈ ds e)).map (fun t => sol (Var.shift e t.1 t.2))).sum)).sum := by
    congr 1
    exact List.map_congr_left (fun e _ => h2 e)
  rw [h3, listSum_map_neg]
  ring

theorem assignedSum_update_shortage (employees : List Employee) (sol : Var → ℚ)
    (d : Day) (st : ShiftType) (x : ℚ) (t : Slot) :
    assignedSum employees (Function.update sol (Var.shortage d st) x) t =
      assignedSum employees sol t := by
  unfold assignedSum
  have h : ∀ e ∈ employees,
      Function.update sol (Var.shortage d st) x (Var.shift e t.1 t.2) =
        sol (Var.shift e t.1 t.2) :=
    fun e _ => Function.update_noteq (by simp) x sol
  rw [List.map_congr_left h]

theorem shortSumOf_update (sol : Var → ℚ) (t0 : Slot) (ht0 : t0 ∈ slotList) (x : ℚ) :
    shortSumOf (Function.update sol (Var.shortage t0.1 t0.2) x) =
      shortSumOf sol + (x - sol (Var.shortage t0.1 t0.2)) := by
  unfold shortSumOf
  have hcong : ∀ t ∈ slotList, t ≠ t0 →
      Function.update sol (Var.shortage t0.1 t0.2) x (Var.shortage t.1 t.2) =
        sol (Var.shortage t.1 t.2) := by
    intro t _ htne
    apply Function.update_noteq
    intro hEq
    apply htne
    obtain ⟨h1, h2⟩ := Var.shortage.inj hEq
    exact Prod.ext h1 h2
  have h := listSum_congr_one_point slotList
    (fun t => Function.update sol (Var.shortage t0.1 t0.2) x (Var.shortage t.1 t.2))
    (fun t => sol (Var.shortage t.1 t.2)) t0 ht0 slotList_nodup hcong
  rw [h]
  simp

theorem desiredSumOf_update_shortage (employees : List Employee)
    (ds : Employee → List Slot) (sol : Var → ℚ) (d : Day) (st : ShiftType) (x : ℚ) :
    desiredSumOf employees ds (Function.update sol (Var.shortage d st) x) =
      desiredSumOf employees ds sol := by
  unfold desiredSumOf
  have h : ∀ e ∈ employees,
      ((slotList.filter (fun t => t ∈ ds e)).map
        (fun t => Function.update sol (Var.shortage d st) x (Var.shift e t.1 t.2))).sum =
      ((slotList.filter (fun t => t ∈ ds e)).map (fun t => sol (Var.shift e t.1 t.2))).sum := by
    intro e _
    have h2 : ∀ t ∈ slotList.filter (fun t => t ∈ ds e),
        Function.update sol (Var.shortage d st) x (Var.shift e t.1 t.2) =
          sol (Var.shift e t.1 t.2) :=
      fun t _ => Function.update_noteq (by simp) x sol
    rw [List.map_congr_left h2]
  rw [List.map_congr_left h]

theorem shortSumOf_nonneg (sol : Var → ℚ)
    (h : ∀ t ∈ slotList, 0 ≤ sol (Var.shortage t.1 t.2)) : 0 ≤ shortSumOf sol := by
  unfold shortSumOf
  refine List.sum_nonneg ?_
  intro x hx
  obtain ⟨t, ht, rfl⟩ := List.mem_map.mp hx
  exact h t ht

/-- In any optimal solution every shortage variable equals the deficit left by
the assignments, clamped at 0: the objective pushes it down onto the
coverage constraint and the lower bound, whichever binds. -/
theorem opt_shortage_eq_max (employees : List Employee)
    (desired : Employee → Option (List Slot))
    (required : Day → Option (ShiftType → Option ℚ)) (prob : Problem)
    (sol : Var → ℚ)
    (hp : buildProblem employees desired required = some prob)
    (hopt : Optimal employees prob sol)
    (t : Slot) (ht : t ∈ slotList) :
    sol (Var.shortage t.1 t.2) =
      max 0 (reqD required t - assignedSum employees sol t) := by
  have hprob := buildProblem_eq_some _ _ _ _ hp
  subst hprob
  have hsem := (feasible_iff_sem employees (dsD desired) (reqD required) sol).mp hopt.1
  set short := sol (Var.shortage t.1 t.2) with hshort
  set m := max 0 (reqD required t - assignedSum employees sol t) with hm
  have hcov := hsem.1 t ht
  have hnn := hsem.2.2.2 t ht
  have hge : m ≤ short := by
    apply max_le
    · exact hnn
    · linarith
  have hle : short ≤ m := by
    set sol' := Function.update sol (Var.shortage t.1 t.2) m with hsol'
    have hfeas' : FeasibleSem employees (dsD desired) (reqD required) sol' := by
      refine ⟨?_, ?_, ?_, ?_⟩
      · intro t' ht'
        rw [hsol', assignedSum_update_shortage]
        by_cases hEq : t' = t
        · subst hEq
          have : Function.update sol (Var.shortage t'.1 t'.2) m (Var.shortage t'.1 t'.2) = m :=
            Function.update_same _ _ _
          rw [this]
          have := le_max_right (0 : ℚ) (reqD required t' - assignedSum employees sol t')
          linarith
        · have : Function.update sol (Var.shortage t.1 t.2) m (Var.shortage t'.1 t'.2) =
              sol (Var.shortage t'.1 t'.2) := by
            apply Function.update_noteq
            intro hv
            apply hEq
            obtain ⟨h1, h2⟩ := Var.shortage.inj hv
            exact Prod.ext h1 h2
          rw [this]
          exact hsem.1 t' ht'
      · intro e he t' ht' hnd
        rw [hsol', Function.update_noteq (by simp) _ _]
        exact hsem.2.1 e he t' ht' hnd
      · intro e he t' ht'
        rw [hsol', Function.update_noteq (by simp) _ _]
        exact hsem.2.2.1 e he t' ht'
      · intro t' ht'
        by_cases hEq : t' = t
        · subst hEq
          rw [hsol', Function.update_same]
          exact le_max_left _ _
        · have : sol' (Var.shortage t'.1 t'.2) = sol (Var.shortage t'.1 t'.2) := by
            apply Function.update_noteq
            intro hv
            apply hEq
            obtain ⟨h1, h2⟩ := Var.shortage.inj hv
            exact Prod.ext h1 h2
          rw [this]
          exact hsem.2.2.2 t' ht'
    have hobj := hopt.2 sol'
      ((feasible_iff_sem employees (dsD desired) (reqD required) sol').mpr hfeas')
    rw [show (Problem.mk (objTermsOf employees (dsD desired))
          (constrsOf employees (dsD desired) (reqD required))).objective =
          objTermsOf employees (dsD desired) from rfl] at hobj
    rw [eval_objTerms, eval_objTerms, hsol',
        shortSumOf_update sol t ht m,
        desiredSumOf_update_shortage] at hobj
    linarith
  linarith

theorem mem_shiftsData_iff (employees : List Employee) (sol : Var → ℚ)
    (r : Employee × String × ℚ) :
    r ∈ shiftsData employees sol ↔
      ∃ e ∈ employees, ∃ t ∈ slotList,
        sol (Var.shift e t.1 t.2) ≠ 0 ∧ r = (e, slotLabel t, sol (Var.shift e t.1 t.2)) := by
  unfold shiftsData assignEntries
  simp only [List.mem_map, List.mem_filter, List.mem_flatMap, List.mem_dedup,
    decide_not, Bool.not_eq_true', decide_eq_false_iff_not]
  constructor
  · rintro ⟨r0, ⟨⟨t, ht, he⟩, hnz⟩, rfl⟩
    obtain ⟨e, heMem, rfl⟩ := he
    exact ⟨e, heMem, t, ht, hnz, rfl⟩
  · rintro ⟨e, heMem, t, ht, hnz, rfl⟩
    exact ⟨(e, t, sol (Var.shift e t.1 t.2)),
      ⟨⟨t, ht, ⟨e, heMem, rfl⟩⟩, hnz⟩, rfl⟩

theorem pivotCell_eq (employees : List Employee) (sol : Var → ℚ)
    (e : Employee) (t : Slot) (he : e ∈ employees) (ht : t ∈ slotList) :
    pivotCell employees sol e (slotLabel t) = sol (Var.shift e t.1 t.2) := by
  have huniq : ∀ r ∈ shiftsData employees sol,
      r.1 = e → r.2.1 = slotLabel t → r = (e, slotLabel t, sol (Var.shift e t.1 t.2)) := by
    intro r hr h1 h2
    obtain ⟨e', _, t', ht', _, rfl⟩ := (mem_shiftsData_iff employees sol r).mp hr
    simp only at h1 h2
    subst h1
    have : t' = t := slotLabel_inj t' ht' t ht h2
    subst this
    rfl
  unfold pivotCell
  cases hfind : (shiftsData employees sol).find? (fun r => r.1 == e && r.2.1 == slotLabel t) with
  | none =>
    have hzero : sol (Var.shift e t.1 t.2) = 0 := by
      by_contra hnz
      have hmem : (e, slotLabel t, sol (Var.shift e t.1 t.2)) ∈ shiftsData employees sol :=
        (mem_shiftsData_iff employees sol _).mpr ⟨e, he, t, ht, hnz, rfl⟩
      have := List.find?_eq_none.mp hfind _ hmem
      simp at this
    simp [hzero]
  | some r =>
    have hmem := List.mem_of_find?_eq_some hfind
    have hp := List.find?_some hfind
    have hsplit := Bool.and_eq_true_iff.mp hp
    have h1 : r.1 = e := by simpa using hsplit.1
    have h2 : r.2.1 = slotLabel t := by simpa using hsplit.2
    have := huniq r hmem h1 h2
    subst this
    rfl

theorem mem_pivotRows_iff (employees : List Employee) (sol : Var → ℚ) (e : Employee) :
    e ∈ pivotRows employees sol ↔
      e ∈ employees ∧ ∃ t ∈ slotList, sol (Var.shift e t.1 t.2) ≠ 0 := by
  unfold pivotRows
  rw [List.mem_dedup, List.mem_map]
  constructor
  · rintro ⟨r, hr, rfl⟩
    obtain ⟨e', he', t, ht, hnz, rfl⟩ := (mem_shiftsData_iff employees sol r).mp hr
    exact ⟨he', t, ht, hnz⟩
  · rintro ⟨he, t, ht, hnz⟩
    exact ⟨(e, slotLabel t, sol (Var.shift e t.1 t.2)),
      (mem_shiftsData_iff employees sol _).mpr ⟨e, he, t, ht, hnz, rfl⟩, rfl⟩

theorem mem_pivotCols_iff (employees : List Employee) (sol : Var → ℚ) (lab : String) :
    lab ∈ pivotCols employees sol ↔
      ∃ t ∈ slotList, lab = slotLabel t ∧ ∃ e ∈ employees, sol (Var.shift e t.1 t.2) ≠ 0 := by
  unfold pivotCols
  rw [List.mem_dedup, List.mem_map]
  constructor
  · rintro ⟨r, hr, rfl⟩
    obtain ⟨e, he, t, ht, hnz, rfl⟩ := (mem_shiftsData_iff employees sol r).mp hr
    exact ⟨t, ht, rfl, e, he, hnz⟩
  · rintro ⟨t, ht, rfl, e, he, hnz⟩
    exact ⟨(e, slotLabel t, sol (Var.shift e t.1 t.2)),
      (mem_shiftsData_iff employees sol _).mpr ⟨e, he, t, ht, hnz, rfl⟩, rfl⟩

theorem mem_shortagesData_iff (sol : Var → ℚ) (lab : String) (v : ℚ) :
    (lab, v) ∈ shortagesData sol ↔
      ∃ t ∈ slotList, lab = slotLabel t ∧ v = sol (Var.shortage t.1 t.2) ∧ v ≠ 0 := by
  unfold shortagesData
  simp only [List.mem_map, List.mem_filter]
  constructor
  · rintro ⟨r, ⟨hr, hnz⟩, hEq⟩
    obtain ⟨t, ht, rfl⟩ := hr
    have hl : lab = slotLabel t := by
      have := congrArg Prod.fst hEq
      simpa using this.symm
    have hv : v = sol (Var.shortage t.1 t.2) := by
      have := congrArg Prod.snd hEq
      simpa using this.symm
    refine ⟨t, ht, hl, hv, ?_⟩
    rw [hv]
    simpa using hnz
  · rintro ⟨t, ht, rfl, rfl, hnz⟩
    exact ⟨(t, sol (Var.shortage t.1 t.2)),
      ⟨⟨t, ht, rfl⟩, by simpa using hnz⟩, rfl⟩

theorem shortagesData_eq_nil (sol : Var → ℚ)
    (h : ∀ t ∈ slotList, sol (Var.shortage t.1 t.2) = 0) : shortagesData sol = [] := by
  unfold shortagesData
  have : (slotList.map (fun t => (t, sol (Var.shortage t.1 t.2)))).filter
      (fun r => r.2 ≠ 0) = [] := by
    rw [List.filter_eq_nil_iff]
    intro r hr
    obtain ⟨t, ht, rfl⟩ := List.mem_map.mp hr
    simp [h t ht]
  rw [this]
  rfl

theorem buildProblem1 : buildProblem employees1 desired1 required0 = some prob1 := by
  rfl

theorem sol1_shift_vals (e : Employee) (d : Day) (st : ShiftType) :
    sol1 (Var.shift e d st) = 0 ∨ sol1 (Var.shift e d st) = 1 := by
  simp only [sol1]
  by_cases h : e = "A" ∧ d = 1 ∧ st = ShiftType.Morning
  · exact Or.inr (if_pos h)
  · exact Or.inl (if_neg h)

theorem feasible1 : Feasible employees1 prob1 sol1 := by
  rw [show prob1 = ⟨objTermsOf employees1 (dsD desired1),
      constrsOf employees1 (dsD desired1) (reqD required0)⟩ from rfl,
    feasible_iff_sem]
  refine ⟨?_, ?_, ?_, ?_⟩
  · intro t ht
    have hreq : reqD required0 t = 0 := rfl
    have hshort : sol1 (Var.shortage t.1 t.2) = 0 := rfl
    have hsum : assignedSum employees1 sol1 t = sol1 (Var.shift "A" t.1 t.2) := by
      unfold assignedSum employees1
      simp
    rw [hreq, hshort, hsum]
    rcases sol1_shift_vals "A" t.1 t.2 with h | h <;> rw [h] <;> norm_num
  · intro e he t ht hnd
    have he' : e = "A" := by simpa [employees1] using he
    subst he'
    simp only [sol1]
    rw [if_neg]
    intro h
    apply hnd
    have hteq : t = (1, ShiftType.Morning) := Prod.ext h.2.1 h.2.2
    rw [hteq]
    simp [dsD, desired1]
  · intro e _ t _
    exact sol1_shift_vals e t.1 t.2
  · intro t _
    norm_num [sol1]

theorem desired1_filter :
    slotList.filter (fun t => t ∈ dsD desired1 "A") = [(1, ShiftType.Morning)] := by
  decide

theorem slot1M_mem : ((1 : Day), ShiftType.Morning) ∈ slotList := by decide

theorem eval_obj1_sol1 : evalTerms sol1 prob1.objective = -1 := by
  rw [show prob1.objective = objTermsOf employees1 (dsD desired1) from rfl, eval_objTerms]
  have hshort : shortSumOf sol1 = 0 := by
    unfold shortSumOf
    have hmap : slotList.map (fun t => sol1 (Var.shortage t.1 t.2)) =
        slotList.map (fun _ => (0 : ℚ)) :=
      List.map_congr_left (fun t _ => rfl)
    rw [hmap, listSum_map_const]
    ring
  have hdes : desiredSumOf employees1 (dsD desired1) sol1 = 1 := by
    unfold desiredSumOf employees1
    rw [List.map_cons, List.map_nil, List.sum_cons, List.sum_nil, desired1_filter]
    norm_num [sol1]
  rw [hshort, hdes]
  norm_num

theorem obj1_lower (s : Var → ℚ) (hs : Feasible employees1 prob1 s) :
    -1 ≤ evalTerms s prob1.objective := by
  rw [show prob1.objective = objTermsOf employees1 (dsD desired1) from rfl, eval_objTerms]
  have hshort : 0 ≤ shortSumOf s := shortSumOf_nonneg s hs.2.2
  have hdes : desiredSumOf employees1 (dsD desired1) s ≤ 1 := by
    unfold desiredSumOf employees1
    rw [List.map_cons, List.map_nil, List.sum_cons, List.sum_nil, desired1_filter]
    have := hs.2.1 "A" (by simp [employees1]) (1, ShiftType.Morning) slot1M_mem
    rcases this with h | h <;> rw [List.map_cons, List.map_nil, List.sum_cons, List.sum_nil] <;>
      rw [h] <;> norm_num
  linarith

theorem optimal1 : Optimal employees1 prob1 sol1 := by
  refine ⟨feasible1, ?_⟩
  intro s hs
  rw [eval_obj1_sol1]
  exact obj1_lower s hs

theorem buildProblem5 : buildProblem employees5 desired5 required0 = some prob5 := by
  rfl

theorem sol1_shiftB (d : Day) (st : ShiftType) : sol1 (Var.shift "B" d st) = 0 := by
  simp only [sol1]
  rw [if_neg]
  intro h
  exact absurd h.1 (by decide)

theorem feasible5 : Feasible employees5 prob5 sol1 := by
  rw [show prob5 = ⟨objTermsOf employees5 (dsD desired5),
      constrsOf employees5 (dsD desired5) (reqD required0)⟩ from rfl,
    feasible_iff_sem]
  refine ⟨?_, ?_, ?_, ?_⟩
  · intro t ht
    have hreq : reqD required0 t = 0 := rfl
    have hshort : sol1 (Var.shortage t.1 t.2) = 0 := rfl
    have hsum : assignedSum employees5 sol1 t =
        sol1 (Var.shift "A" t.1 t.2) + sol1 (Var.shift "B" t.1 t.2) := by
      unfold assignedSum employees5
      simp
    rw [hreq, hshort, hsum, sol1_shiftB]
    rcases sol1_shift_vals "A" t.1 t.2 with h | h <;> rw [h] <;> norm_num
  · intro e he t ht hnd
    have he' : e = "A" ∨ e = "B" := by simpa [employees5] using he
    rcases he' with rfl | rfl
    · simp only [sol1]
      rw [if_neg]
      intro h
      apply hnd
      have hteq : t = (1, ShiftType.Morning) := Prod.ext h.2.1 h.2.2
      rw [hteq]
      simp [dsD, desired5]
    · exact sol1_shiftB t.1 t.2
  · intro e _ t _
    exact sol1_shift_vals e t.1 t.2
  · intro t _
    norm_num [sol1]

theorem desired5_filterA :
    slotList.filter (fun t => t ∈ dsD desired5 "A") = [(1, ShiftType.Morning)] := by
  decide

theorem desired5_filterB :
    slotList.filter (fun t => t ∈ dsD desired5 "B") = [] := by
  decide

theorem eval_obj5_sol1 : evalTerms sol1 prob5.objective = -1 := by
  rw [show prob5.objective = objTermsOf employees5 (dsD desired5) from rfl, eval_objTerms]
  have hshort : shortSumOf sol1 = 0 := by
    unfold shortSumOf
    have hmap : slotList.map (fun t => sol1 (Var.shortage t.1 t.2)) =
        slotList.map (fun _ => (0 : ℚ)) :=
      List.map_congr_left (fun t _ => rfl)
    rw [hmap, listSum_map_const]
    ring
  have hdes : desiredSumOf employees5 (dsD desired5) sol1 = 1 := by
    unfold desiredSumOf employees5
    rw [List.map_cons, List.map_cons, List.map_nil, List.sum_cons, List.sum_cons,
      List.sum_nil, desired5_filterA, desired5_filterB]
    norm_num [sol1]
  rw [hshort, hdes]
  norm_num

theorem obj5_lower (s : Var → ℚ) (hs : Feasible employees5 prob5 s) :
    -1 ≤ evalTerms s prob5.objective := by
  rw [show prob5.objective = objTermsOf employees5 (dsD desired5) from rfl, eval_objTerms]
  have hshort : 0 ≤ shortSumOf s := shortSumOf_nonneg s hs.2.2
  have hdes : desiredSumOf employees5 (dsD desired5) s ≤ 1 := by
    unfold desiredSumOf employees5
    rw [List.map_cons, List.map_cons, List.map_nil, List.sum_cons, List.sum_cons,
      List.sum_nil, desired5_filterA, desired5_filterB]
    have := hs.2.1 "A" (by simp [employees5]) (1, ShiftType.Morning) slot1M_mem
    rcases this with h | h <;>
      simp only [List.map_cons, List.map_nil, List.sum_cons, List.sum_nil] <;>
      rw [h] <;> norm_num
  linarith

theorem optimal5 : Optimal employees5 prob5 sol1 := by
  refine ⟨feasible5, ?_⟩
  intro s hs
  rw [eval_obj5_sol1]
  exact obj5_lower s hs

theorem buildProblem6 : buildProblem employees1 desired6 required0 = some prob6 := by
  rfl

theorem feasible6 : Feasible employees1 prob6 sol0 := by
  rw [show prob6 = ⟨objTermsOf employees1 (dsD desired6),
      constrsOf employees1 (dsD desired6) (reqD required0)⟩ from rfl,
    feasible_iff_sem]
  refine ⟨?_, ?_, ?_, ?_⟩
  · intro t ht
    have hreq : reqD required0 t = 0 := rfl
    have hsum : assignedSum employees1 sol0 t = 0 := by
      unfold assignedSum employees1
      simp [sol0]
    rw [hreq, hsum]
    norm_num [sol0]
  · intro e _ t _ _
    rfl
  · intro e _ t _
    exact Or.inl rfl
  · intro t _
    norm_num [sol0]

theorem desired6_filter (e : Employee) :
    slotList.filter (fun t => t ∈ dsD desired6 e) = [] := by
  rw [List.filter_eq_nil_iff]
  intro t _
  simp [dsD, desired6]

theorem desiredSum6_eq_zero (s : Var → ℚ) :
    desiredSumOf employees1 (dsD desired6) s = 0 := by
  unfold desiredSumOf employees1
  rw [List.map_cons, List.map_nil, List.sum_cons, List.sum_nil, desired6_filter]
  simp

theorem eval_obj6_sol0 : evalTerms sol0 prob6.objective = 0 := by
  rw [show prob6.objective = objTermsOf employees1 (dsD desired6) from rfl, eval_objTerms]
  have hshort : shortSumOf sol0 = 0 := by
    unfold shortSumOf
    have hmap : slotList.map (fun t => sol0 (Var.shortage t.1 t.2)) =
        slotList.map (fun _ => (0 : ℚ)) :=
      List.map_congr_left (fun t _ => rfl)
    rw [hmap, listSum_map_const]
    ring
  rw [hshort, desiredSum6_eq_zero]
  norm_num

theorem optimal6 : Optimal employees1 prob6 sol0 := by
  refine ⟨feasible6, ?_⟩
  intro s hs
  rw [eval_obj6_sol0,
    show prob6.objective = objTermsOf employees1 (dsD desired6) from rfl, eval_objTerms,
    desiredSum6_eq_zero]
  have := shortSumOf_nonneg s hs.2.2
  linarith

theorem buildProblem7 : buildProblem employees1 desired7 required1 = some prob7 := by
  rfl

theorem desired7_filter :
    slotList.filter (fun t => t ∈ dsD desired7 "A") =
      slotList.filter (fun t => t.2 = ShiftType.Morning) := by
  decide

theorem desired7_all_morning : ∀ u ∈ dsD desired7 "A", u.2 = ShiftType.Morning := by
  decide

theorem desired7_grid_morning : ∀ t ∈ slotList,
    t.2 = ShiftType.Morning → t ∈ dsD desired7 "A" := by
  decide

theorem morning_filter_len :
    (slotList.filter (fun t => t.2 = ShiftType.Morning)).length = 30 := by decide

theorem evening_filter_len :
    (slotList.filter (fun t => ¬ t.2 = ShiftType.Morning)).length = 30 := by decide

theorem bound7_sum :
    (slotList.map (fun t => if t.2 = ShiftType.Morning then (-1 : ℚ) else 1)).sum = 0 := by
  rw [listSum_map_ite, morning_filter_len, evening_filter_len]
  norm_num

theorem eval_obj7 (s : Var → ℚ) :
    evalTerms s prob7.objective =
      (slotList.map (fun t => s (Var.shortage t.1 t.2) -
        (if t.2 = ShiftType.Morning then s (Var.shift "A" t.1 t.2) else 0))).sum := by
  rw [show prob7.objective = objTermsOf employees1 (dsD desired7) from rfl, eval_objTerms]
  unfold desiredSumOf employees1 shortSumOf
  rw [List.map_cons, List.map_nil, List.sum_cons, List.sum_nil, desired7_filter,
    listSum_filter_map, listSum_map_sub]
  ring

theorem feasible7 : Feasible employees1 prob7 sol7 := by
  rw [show prob7 = ⟨objTermsOf employees1 (dsD desired7),
      constrsOf employees1 (dsD desired7) (reqD required1)⟩ from rfl,
    feasible_iff_sem]
  refine ⟨?_, ?_, ?_, ?_⟩
  · intro t ht
    have hreq : reqD required1 t = 1 := rfl
    have hsum : assignedSum employees1 sol7 t = sol7 (Var.shift "A" t.1 t.2) := by
      unfold assignedSum employees1
      simp
    rw [hreq, hsum]
    simp only [sol7]
    by_cases hm : t.2 = ShiftType.Morning
    · have hne : ¬ t.2 = ShiftType.Evening := by rw [hm]; decide
      rw [if_pos hm, if_neg hne]
      norm_num
    · have hev : t.2 = ShiftType.Evening := by
        cases h2 : t.2
        · exact absurd h2 hm
        · rfl
      rw [if_neg hm, if_pos hev]
      norm_num
  · intro e he t ht hnd
    have he' : e = "A" := by simpa [employees1] using he
    subst he'
    simp only [sol7]
    rw [if_neg]
    intro hm
    exact hnd (desired7_grid_morning t ht hm)
  · intro e _ t _
    simp only [sol7]
    by_cases hm : t.2 = ShiftType.Morning
    · exact Or.inr (if_pos hm)
    · exact Or.inl (if_neg hm)
  · intro t _
    simp only [sol7]
    by_cases hev : t.2 = ShiftType.Evening
    · rw [if_pos hev]; norm_num
    · rw [if_neg hev]

theorem obj7_term_lower (s : Var → ℚ)
    (hsem : FeasibleSem employees1 (dsD desired7) (reqD required1) s) :
    ∀ t ∈ slotList, (if t.2 = ShiftType.Morning then (-1 : ℚ) else 1) ≤
      s (Var.shortage t.1 t.2) -
        (if t.2 = ShiftType.Morning then s (Var.shift "A" t.1 t.2) else 0) := by
  intro t ht
  have hcov := hsem.1 t ht
  have hreq : reqD required1 t = 1 := rfl
  have hsum : assignedSum employees1 s t = s (Var.shift "A" t.1 t.2) := by
    unfold assignedSum employees1
    simp
  rw [hreq, hsum] at hcov
  have hnn := hsem.2.2.2 t ht
  by_cases hm : t.2 = ShiftType.Morning
  · rw [if_pos hm, if_pos hm]
    rcases hsem.2.2.1 "A" (by simp [employees1]) t ht with h | h <;> rw [h] <;> linarith
  · rw [if_neg hm, if_neg hm]
    have hpref : s (Var.shift "A" t.1 t.2) = 0 := by
      apply hsem.2.1 "A" (by simp [employees1]) t ht
      intro hmem
      exact hm (desired7_all_morning t hmem)
    linarith

theorem obj7_lower (s : Var → ℚ) (hs : Feasible employees1 prob7 s) :
    0 ≤ evalTerms s prob7.objective := by
  have hs' : Feasible employees1 ⟨objTermsOf employees1 (dsD desired7),
      constrsOf employees1 (dsD desired7) (reqD required1)⟩ s := hs
  have hsem := (feasible_iff_sem employees1 (dsD desired7) (reqD required1) s).mp hs'
  rw [eval_obj7]
  have hle := List.sum_le_sum (obj7_term_lower s hsem)
  rw [bound7_sum] at hle
  exact hle

theorem eval_obj7_sol7 : evalTerms sol7 prob7.objective = 0 := by
  rw [eval_obj7]
  have hmap : slotList.map (fun t => sol7 (Var.shortage t.1 t.2) -
      (if t.2 = ShiftType.Morning then sol7 (Var.shift "A" t.1 t.2) else 0)) =
      slotList.map (fun t => if t.2 = ShiftType.Morning then (-1 : ℚ) else 1) := by
    apply List.map_congr_left
    intro t _
    simp only [sol7]
    by_cases hm : t.2 = ShiftType.Morning
    · have hne : ¬ t.2 = ShiftType.Evening := by rw [hm]; decide
      rw [if_pos hm, if_pos hm, if_pos hm, if_neg hne]
      norm_num
    · have hev : t.2 = ShiftType.Evening := by
        cases h2 : t.2
        · exact absurd h2 hm
        · rfl
      rw [if_neg hm, if_neg hm, if_pos hev]
      norm_num
  rw [hmap, bound7_sum]

theorem optimal7 : Optimal employees1 prob7 sol7 := by
  refine ⟨feasible7, ?_⟩
  intro s hs
  rw [eval_obj7_sol7]
  exact obj7_lower s hs

/-- Structure of every optimal solution of the scenario-1 instance. -/
theorem opt7_structure (sol : Var → ℚ) (hopt : Optimal employees1 prob7 sol) :
    ∀ d ∈ days,
      sol (Var.shift "A" d ShiftType.Morning) = 1 ∧
      sol (Var.shortage d ShiftType.Morning) = 0 ∧
      sol (Var.shortage d ShiftType.Evening) = 1 := by
  have hfeas : Feasible employees1 ⟨objTermsOf employees1 (dsD desired7),
      constrsOf employees1 (dsD desired7) (reqD required1)⟩ sol := hopt.1
  have hsem := (feasible_iff_sem employees1 (dsD desired7) (reqD required1) sol).mp hfeas
  have hub : evalTerms sol prob7.objective ≤ 0 := by
    have := hopt.2 sol7 feasible7
    rw [eval_obj7_sol7] at this
    exact this
  have hterm := obj7_term_lower sol hsem
  have hdiff0 : ∀ t ∈ slotList,
      (sol (Var.shortage t.1 t.2) -
        (if t.2 = ShiftType.Morning then sol (Var.shift "A" t.1 t.2) else 0)) -
      (if t.2 = ShiftType.Morning then (-1 : ℚ) else 1) = 0 := by
    apply listSum_eq_zero_of_nonneg
    · intro t ht
      have := hterm t ht
      linarith
    · rw [listSum_map_sub, bound7_sum, ← eval_obj7]
      linarith
  intro d hd
  have hdM : ((d, ShiftType.Morning) : Slot) ∈ slotList :=
    (mem_slotList_iff _).mpr ⟨hd, (by decide : ShiftType.Morning ∈ shiftTypes)⟩
  have hdE : ((d, ShiftType.Evening) : Slot) ∈ slotList :=
    (mem_slotList_iff _).mpr ⟨hd, (by decide : ShiftType.Evening ∈ shiftTypes)⟩
  have hM : (sol (Var.shortage d ShiftType.Morning) -
      (if ShiftType.Morning = ShiftType.Morning then sol (Var.shift "A" d ShiftType.Morning) else 0)) -
      (if ShiftType.Morning = ShiftType.Morning then (-1 : ℚ) else 1) = 0 :=
    hdiff0 (d, ShiftType.Morning) hdM
  have hE : (sol (Var.shortage d ShiftType.Evening) -
      (if ShiftType.Evening = ShiftType.Morning then sol (Var.shift "A" d ShiftType.Evening) else 0)) -
      (if ShiftType.Evening = ShiftType.Morning then (-1 : ℚ) else 1) = 0 :=
    hdiff0 (d, ShiftType.Evening) hdE
  rw [if_pos rfl, if_pos rfl] at hM
  rw [if_neg (by decide), if_neg (by decide)] at hE
  have hEzero : sol (Var.shortage d ShiftType.Evening) = 1 := by linarith
  have hnnM : 0 ≤ sol (Var.shortage d ShiftType.Morning) :=
    hsem.2.2.2 (d, ShiftType.Morning) hdM
  have hbin : sol (Var.shift "A" d ShiftType.Morning) = 0 ∨
      sol (Var.shift "A" d ShiftType.Morning) = 1 :=
    hsem.2.2.1 "A" (by simp [employees1]) (d, ShiftType.Morning) hdM
  rcases hbin with h | h
  · exfalso
    rw [h] at hM
    linarith
  · refine ⟨h, ?_, hEzero⟩
    rw [h] at hM
    linarith

theorem listFlatMap_congr {α β : Type} (l : List α) (f g : α → List β)
    (h : ∀ a ∈ l, f a = g a) : l.flatMap f = l.flatMap g := by
  induction l with
  | nil => simp
  | cons a l ih =>
    rw [List.flatMap_cons, List.flatMap_cons, h a (by simp),
      ih (fun x hx => h x (by simp [hx]))]

theorem sol1_A1M : sol1 (Var.shift "A" 1 ShiftType.Morning) = 1 := by
  simp [sol1]

/-- C1 counterexample: with one employee desiring day-1 Morning and required
coverage 0 everywhere, the optimal solution assigns the desired slot (the
objective rewards it), so assigned + shortage = 1 + 0 exceeds the required 0:
the claimed exact equality fails for this returned optimal solution. -/
theorem c1_counterexample :
    buildProblem employees1 desired1 required0 = some prob1 ∧
    Optimal employees1 prob1 sol1 ∧
    ((1 : Day), ShiftType.Morning) ∈ slotList ∧
    assignedSum employees1 sol1 (1, ShiftType.Morning) +
      sol1 (Var.shortage 1 ShiftType.Morning) ≠ reqD required0 (1, ShiftType.Morning) := by
  refine ⟨buildProblem1, optimal1, slot1M_mem, ?_⟩
  have h1 : assignedSum employees1 sol1 (1, ShiftType.Morning) = 1 := by
    unfold assignedSum employees1
    simp only [List.map_cons, List.map_nil, List.sum_cons, List.sum_nil]
    rw [sol1_A1M]
    norm_num
  have h2 : sol1 (Var.shortage 1 ShiftType.Morning) = 0 := rfl
  have h3 : reqD required0 (1, ShiftType.Morning) = 0 := rfl
  rw [h1, h2, h3]
  norm_num

/-- C1 (amended): for every returned optimal solution and every slot, the sum
of assignments plus the shortage is at least the required coverage, and the
shortage equals the deficit clamped at zero, max 0 (required - assigned);
exact equality holds only when assignments do not exceed the requirement. -/
theorem c1_amended (employees : List Employee)
    (desired : Employee → Option (List Slot))
    (required : Day → Option (ShiftType → Option ℚ)) (prob : Problem) (sol : Var → ℚ)
    (hp : buildProblem employees desired required = some prob)
    (hopt : Optimal employees prob sol) (t : Slot) (ht : t ∈ slotList) :
    reqD required t ≤ assignedSum employees sol t + sol (Var.shortage t.1 t.2) ∧
    sol (Var.shortage t.1 t.2) =
      max 0 (reqD required t - assignedSum employees sol t) := by
  constructor
  · have hprob := buildProblem_eq_some _ _ _ _ hp
    subst hprob
    exact ((feasible_iff_sem employees (dsD desired) (reqD required) sol).mp hopt.1).1 t ht
  · exact opt_shortage_eq_max employees desired required prob sol hp hopt t ht

/-- C1 witness: the amended statement evaluated on the concrete instance. -/
theorem c1_witness :
    buildProblem employees1 desired1 required0 = some prob1 ∧
    Optimal employees1 prob1 sol1 ∧
    (reqD required0 (1, ShiftType.Morning) ≤
        assignedSum employees1 sol1 (1, ShiftType.Morning) +
          sol1 (Var.shortage 1 ShiftType.Morning) ∧
      sol1 (Var.shortage 1 ShiftType.Morning) =
        max 0 (reqD required0 (1, ShiftType.Morning) -
          assignedSum employees1 sol1 (1, ShiftType.Morning))) :=
  ⟨buildProblem1, optimal1,
    c1_amended employees1 desired1 required0 prob1 sol1 buildProblem1 optimal1
      (1, ShiftType.Morning) slot1M_mem⟩

/-- C2: for every employee and every grid slot outside that employee's desired
set, the model contains the explicit equality constraint fixing the
assignment variable to 0, every feasible valuation (in particular the
returned optimal one) gives the variable the value 0, and the returned table
cell for the pair is 0. -/
theorem c2_preference_lock (employees : List Employee)
    (desired : Employee → Option (List Slot))
    (required : Day → Option (ShiftType → Option ℚ)) (prob : Problem) (sol : Var → ℚ)
    (hp : buildProblem employees desired required = some prob)
    (hfeas : Feasible employees prob sol)
    (e : Employee) (he : e ∈ employees) (ds : List Slot) (hds : desired e = some ds)
    (t : Slot) (ht : t ∈ slotList) (hnd : t ∉ ds) :
    prefConstr e t ∈ prob.constraints ∧
    sol (Var.shift e t.1 t.2) = 0 ∧
    pivotCell employees sol e (slotLabel t) = 0 := by
  have hprob := buildProblem_eq_some _ _ _ _ hp
  subst hprob
  have hnd' : t ∉ dsD desired e := by simpa [dsD, hds] using hnd
  have hmem : prefConstr e t ∈ constrsOf employees (dsD desired) (reqD required) :=
    (mem_constrsOf employees (dsD desired) (reqD required) _).mpr
      (Or.inr ⟨e, he, t, ht, hnd', rfl⟩)
  have hsem := (feasible_iff_sem employees (dsD desired) (reqD required) sol).mp hfeas
  have hzero := hsem.2.1 e he t ht hnd'
  refine ⟨hmem, hzero, ?_⟩
  rw [pivotCell_eq employees sol e t he ht, hzero]

/-- C2 witness: day-1 Evening is not desired in the concrete instance; the
lock constraint is in the model and the value and cell are 0. -/
theorem c2_witness :
    ((1, ShiftType.Evening) : Slot) ∉ [((1 : Day), ShiftType.Morning)] ∧
    prefConstr "A" (1, ShiftType.Evening) ∈ prob1.constraints ∧
    sol1 (Var.shift "A" 1 ShiftType.Evening) = 0 ∧
    pivotCell employees1 sol1 "A" (slotLabel (1, ShiftType.Evening)) = 0 := by
  have h := c2_preference_lock employees1 desired1 required0 prob1 sol1 buildProblem1
    feasible1 "A" (by decide) [(1, ShiftType.Morning)] rfl
    (1, ShiftType.Evening) (by decide) (by decide)
  exact ⟨by decide, h.1, h.2.1, h.2.2⟩

/-- C3: the objective is exactly the sum of the 60 shortage variables minus
the sum of the grid assignment variables whose slot is desired: semantically
its value on any valuation is that difference, and syntactically every term
is either a shortage variable with coefficient 1 or a desired assignment
variable with coefficient -1 - no other terms, no scaling factor. -/
theorem c3_objective (employees : List Employee)
    (desired : Employee → Option (List Slot))
    (required : Day → Option (ShiftType → Option ℚ)) (prob : Problem)
    (hp : buildProblem employees desired required = some prob) :
    (∀ sol : Var → ℚ, evalTerms sol prob.objective =
      shortSumOf sol - desiredSumOf employees (dsD desired) sol) ∧
    (∀ p ∈ prob.objective,
      (p.1 = 1 ∧ ∃ t ∈ slotList, p.2 = Var.shortage t.1 t.2) ∨
      (p.1 = -1 ∧ ∃ e ∈ employees, ∃ t ∈ slotList,
        t ∈ dsD desired e ∧ p.2 = Var.shift e t.1 t.2)) := by
  have hprob := buildProblem_eq_some _ _ _ _ hp
  subst hprob
  constructor
  · intro sol
    exact eval_objTerms employees (dsD desired) sol
  · intro p hpmem
    rcases List.mem_append.mp hpmem with h | h
    · obtain ⟨t, ht, rfl⟩ := List.mem_map.mp h
      exact Or.inl ⟨rfl, t, ht, rfl⟩
    · obtain ⟨e, he, hin⟩ := List.mem_flatMap.mp h
      obtain ⟨t, htf, rfl⟩ := List.mem_map.mp hin
      have hf := List.mem_filter.mp htf
      exact Or.inr ⟨rfl, e, he, t, hf.1, of_decide_eq_true hf.2, rfl⟩

/-- C3 witness: the semantic form of the objective on the concrete instance. -/
theorem c3_witness :
    buildProblem employees1 desired1 required0 = some prob1 ∧
    evalTerms sol1 prob1.objective =
      shortSumOf sol1 - desiredSumOf employees1 (dsD desired1) sol1 :=
  ⟨buildProblem1,
    (c3_objective employees1 desired1 required0 prob1 buildProblem1).1 sol1⟩

/-- C4: every cell of the returned assignment table is 0 or 1, because every
assignment variable is binary in any feasible valuation. -/
theorem c4_binary (employees : List Employee) (prob : Problem) (sol : Var → ℚ)
    (hfeas : Feasible employees prob sol)
    (e : Employee) (he : e ∈ pivotRows employees sol)
    (lab : String) (hlab : lab ∈ pivotCols employees sol) :
    pivotCell employees sol e lab = 0 ∨ pivotCell employees sol e lab = 1 := by
  obtain ⟨heEmp, _⟩ := (mem_pivotRows_iff employees sol e).mp he
  obtain ⟨t, ht, rfl, _⟩ := (mem_pivotCols_iff employees sol lab).mp hlab
  rw [pivotCell_eq employees sol e t heEmp ht]
  exact hfeas.2.1 e heEmp t ht

/-- C4 witness: the one existing cell of the concrete instance is 0 or 1. -/
theorem c4_witness :
    Feasible employees1 prob1 sol1 ∧
    "A" ∈ pivotRows employees1 sol1 ∧
    slotLabel (1, ShiftType.Morning) ∈ pivotCols employees1 sol1 ∧
    (pivotCell employees1 sol1 "A" (slotLabel (1, ShiftType.Morning)) = 0 ∨
     pivotCell employees1 sol1 "A" (slotLabel (1, ShiftType.Morning)) = 1) := by
  have hnz : sol1 (Var.shift "A" 1 ShiftType.Morning) ≠ 0 := by
    rw [sol1_A1M]
    norm_num
  have hrow : "A" ∈ pivotRows employees1 sol1 :=
    (mem_pivotRows_iff employees1 sol1 "A").mpr
      ⟨by decide, (1, ShiftType.Morning), slot1M_mem, hnz⟩
  have hcol : slotLabel (1, ShiftType.Morning) ∈ pivotCols employees1 sol1 :=
    (mem_pivotCols_iff employees1 sol1 _).mpr
      ⟨(1, ShiftType.Morning), slot1M_mem, rfl, "A", by decide, hnz⟩
  exact ⟨feasible1, hrow, hcol,
    c4_binary employees1 prob1 sol1 feasible1 "A" hrow _ hcol⟩

/-- C5 counterexample: with employees A and B where only A desires a slot and
required coverage is 0, the optimal solution assigns B nothing, and the
returned assignment table has no row for B although B is in the employee
sequence: rows are not one per employee. -/
theorem c5_counterexample :
    buildProblem employees5 desired5 required0 = some prob5 ∧
    Optimal employees5 prob5 sol1 ∧
    "B" ∈ employees5 ∧
    "B" ∉ pivotRows employees5 sol1 := by
  refine ⟨buildProblem5, optimal5, by decide, ?_⟩
  intro hmem
  obtain ⟨_, t, _, hnz⟩ := (mem_pivotRows_iff employees5 sol1 "B").mp hmem
  exact hnz (sol1_shiftB t.1 t.2)

/-- C5 (amended): the returned assignment table has one row per employee with
at least one non-zero assignment (an employee whose assignments are all zero
gets no row), and a present cell holds 0 for every pair whose assignment
value is zero. -/
theorem c5_amended (employees : List Employee) (sol : Var → ℚ) (e : Employee) :
    (e ∈ pivotRows employees sol ↔
      e ∈ employees ∧ ∃ t ∈ slotList, sol (Var.shift e t.1 t.2) ≠ 0) ∧
    (∀ t ∈ slotList, e ∈ employees → sol (Var.shift e t.1 t.2) = 0 →
      pivotCell employees sol e (slotLabel t) = 0) := by
  constructor
  · exact mem_pivotRows_iff employees sol e
  · intro t ht he h0
    rw [pivotCell_eq employees sol e t he ht, h0]

/-- C5 witness: A has a row, and the zero-valued day-1 Evening cell reads 0. -/
theorem c5_witness :
    "A" ∈ pivotRows employees5 sol1 ∧
    pivotCell employees5 sol1 "A" (slotLabel (1, ShiftType.Evening)) = 0 := by
  have h := c5_amended employees5 sol1 "A"
  have hnz : sol1 (Var.shift "A" 1 ShiftType.Morning) ≠ 0 := by
    rw [sol1_A1M]
    norm_num
  constructor
  · exact h.1.mpr ⟨by decide, (1, ShiftType.Morning), slot1M_mem, hnz⟩
  · refine h.2 (1, ShiftType.Evening) (by decide) (by decide) ?_
    simp only [sol1]
    rw [if_neg]
    intro hcond
    exact absurd hcond.2.2 (by decide)

/-- C6: if the required coverage of all 60 slots is 0, every optimal shortage
value is 0 and the returned shortage table is empty. -/
theorem c6_zero_required (employees : List Employee)
    (desired : Employee → Option (List Slot))
    (required : Day → Option (ShiftType → Option ℚ)) (prob : Problem) (sol : Var → ℚ)
    (hp : buildProblem employees desired required = some prob)
    (hreq : ∀ t ∈ slotList, lookupReq required t = some 0)
    (hopt : Optimal employees prob sol) :
    (∀ t ∈ slotList, sol (Var.shortage t.1 t.2) = 0) ∧ shortagesData sol = [] := by
  have hzero : ∀ t ∈ slotList, sol (Var.shortage t.1 t.2) = 0 := by
    intro t ht
    have h := opt_shortage_eq_max employees desired required prob sol hp hopt t ht
    have hreq0 : reqD required t = 0 := by
      unfold reqD
      rw [hreq t ht]
      rfl
    rw [hreq0] at h
    have hsumnn : 0 ≤ assignedSum employees sol t := by
      unfold assignedSum
      refine List.sum_nonneg ?_
      intro x hx
      obtain ⟨e, heMem, rfl⟩ := List.mem_map.mp hx
      rcases hopt.1.2.1 e heMem t ht with h0 | h0 <;> rw [h0] <;> norm_num
    rw [h]
    apply max_eq_left
    linarith
  exact ⟨hzero, shortagesData_eq_nil sol hzero⟩

/-- C6 witness: the all-zero optimal solution of the zero-requirement input
has shortage 0 and an empty shortage table. -/
theorem c6_witness :
    lookupReq required0 (1, ShiftType.Morning) = some 0 ∧
    sol0 (Var.shortage 1 ShiftType.Morning) = 0 ∧
    shortagesData sol0 = [] := by
  have h := c6_zero_required employees1 desired6 required0 prob6 sol0 buildProblem6
    (fun _ _ => rfl) optimal6
  exact ⟨rfl, h.1 (1, ShiftType.Morning) slot1M_mem, h.2⟩

/-- C7: scenario 1 - one employee desiring every Morning slot, required
coverage 1 everywhere: every optimal solution assigns the employee all 30
Morning slots (value 1, also visible in the table cell), has shortage 0 on
every Morning slot, shortage 1 on every Evening slot, and the shortage table
holds a row with value 1 for each Evening slot and no Morning row. -/
theorem c7_scenario1 (sol : Var → ℚ) (hopt : Optimal employees1 prob7 sol) :
    ∀ d ∈ days,
      sol (Var.shift "A" d ShiftType.Morning) = 1 ∧
      pivotCell employees1 sol "A" (slotLabel (d, ShiftType.Morning)) = 1 ∧
      sol (Var.shortage d ShiftType.Morning) = 0 ∧
      sol (Var.shortage d ShiftType.Evening) = 1 ∧
      (slotLabel (d, ShiftType.Evening), (1 : ℚ)) ∈ shortagesData sol ∧
      (∀ v : ℚ, (slotLabel (d, ShiftType.Morning), v) ∉ shortagesData sol) := by
  intro d hd
  obtain ⟨h1, h2, h3⟩ := opt7_structure sol hopt d hd
  have hdM : ((d, ShiftType.Morning) : Slot) ∈ slotList :=
    (mem_slotList_iff _).mpr ⟨hd, (by decide : ShiftType.Morning ∈ shiftTypes)⟩
  have hdE : ((d, ShiftType.Evening) : Slot) ∈ slotList :=
    (mem_slotList_iff _).mpr ⟨hd, (by decide : ShiftType.Evening ∈ shiftTypes)⟩
  refine ⟨h1, ?_, h2, h3, ?_, ?_⟩
  · rw [pivotCell_eq employees1 sol "A" (d, ShiftType.Morning) (by decide) hdM]
    exact h1
  · apply (mem_shortagesData_iff sol _ _).mpr
    refine ⟨(d, ShiftType.Evening), hdE, rfl, h3.symm, ?_⟩
    norm_num
  · intro v hv
    obtain ⟨t', ht', hlab, hveq, hvne⟩ := (mem_shortagesData_iff sol _ _).mp hv
    have ht'eq : t' = (d, ShiftType.Morning) :=
      slotLabel_inj t' ht' (d, ShiftType.Morning) hdM hlab.symm
    subst ht'eq
    rw [hveq] at hvne
    exact hvne h2

/-- C7 witness: the scenario-1 conclusions hold at day 1 for the concrete
optimal valuation. -/
theorem c7_witness :
    Optimal employees1 prob7 sol7 ∧
    sol7 (Var.shift "A" 1 ShiftType.Morning) = 1 ∧
    sol7 (Var.shortage 1 ShiftType.Morning) = 0 ∧
    sol7 (Var.shortage 1 ShiftType.Evening) = 1 ∧
    (slotLabel (1, ShiftType.Evening), (1 : ℚ)) ∈ shortagesData sol7 := by
  have h := c7_scenario1 sol7 optimal7 1 (by decide)
  exact ⟨optimal7, h.1, h.2.2.1, h.2.2.2.1, h.2.2.2.2.1⟩

/-- C8: a missing employee entry in the desired map, a missing day in 1..30,
or a missing shift type under a present day, makes the call fail with the
propagated lookup error (none) instead of returning tables. -/
theorem c8_missing_key (employees : List Employee)
    (desired : Employee → Option (List Slot))
    (required : Day → Option (ShiftType → Option ℚ))
    (solver : Problem → (Var → ℚ))
    (h : (∃ e ∈ employees, desired e = none) ∨
         (∃ d ∈ days, required d = none) ∨
         (∃ d ∈ days, ∃ row, required d = some row ∧
           ∃ st ∈ shiftTypes, row st = none)) :
    generateShifts employees desired required solver = none := by
  unfold generateShifts
  rw [buildProblem_eq_none]
  · rfl
  · rcases h with h | ⟨d, hd, hnone⟩ | ⟨d, hd, row, hrow, st, hst, hnone⟩
    · exact Or.inl h
    · refine Or.inr ⟨(d, ShiftType.Morning),
        (mem_slotList_iff _).mpr ⟨hd, (by decide : ShiftType.Morning ∈ shiftTypes)⟩, ?_⟩
      simp [lookupReq, hnone]
    · refine Or.inr ⟨(d, st), (mem_slotList_iff _).mpr ⟨hd, hst⟩, ?_⟩
      simp [lookupReq, hrow, hnone]

/-- C8 witness: a desired map with no entries makes the call fail. -/
theorem c8_witness :
    ("A" ∈ employees1 ∧ desiredNone "A" = none) ∧
    generateShifts employees1 desiredNone required0 (fun _ => sol0) = none :=
  ⟨⟨by decide, rfl⟩,
    c8_missing_key employees1 desiredNone required0 (fun _ => sol0)
      (Or.inl ⟨"A", by decide, rfl⟩)⟩

/-- C9: the shortage table has a row keyed by the slot label and holding the
shortage amount exactly for the slots whose solved shortage is non-zero;
slots with zero shortage have no row. -/
theorem c9_shortage_rows (sol : Var → ℚ) (t : Slot) (ht : t ∈ slotList) (v : ℚ) :
    (slotLabel t, v) ∈ shortagesData sol ↔
      (sol (Var.shortage t.1 t.2) ≠ 0 ∧ v = sol (Var.shortage t.1 t.2)) := by
  constructor
  · intro hmem
    obtain ⟨t', ht', hlab, hveq, hvne⟩ := (mem_shortagesData_iff sol _ _).mp hmem
    have ht'eq : t' = t := slotLabel_inj t' ht' t ht hlab.symm
    subst ht'eq
    constructor
    · rw [← hveq]
      exact hvne
    · exact hveq
  · rintro ⟨hnz, rfl⟩
    exact (mem_shortagesData_iff sol _ _).mpr ⟨t, ht, rfl, rfl, hnz⟩

/-- C9 witness: the day-1 Evening row of the scenario-1 shortage table. -/
theorem c9_witness :
    ((1, ShiftType.Evening) : Slot) ∈ slotList ∧
    ((slotLabel (1, ShiftType.Evening), (1 : ℚ)) ∈ shortagesData sol7 ↔
      (sol7 (Var.shortage 1 ShiftType.Evening) ≠ 0 ∧
        (1 : ℚ) = sol7 (Var.shortage 1 ShiftType.Evening))) :=
  ⟨by decide, c9_shortage_rows sol7 (1, ShiftType.Evening) (by decide) 1⟩

/-- C10: two desired maps that agree, for every employee, on the 60-slot grid
produce the same model and, for any solver, the same returned tables: desired
entries outside the grid have no effect. -/
theorem c10_grid_only (employees : List Employee)
    (desiredA desiredB : Employee → Option (List Slot))
    (required : Day → Option (ShiftType → Option ℚ))
    (hagree : ∀ e ∈ employees, ∃ l1 l2, desiredA e = some l1 ∧ desiredB e = some l2 ∧
      ∀ t ∈ slotList, (t ∈ l1 ↔ t ∈ l2)) :
    buildProblem employees desiredA required = buildProblem employees desiredB required ∧
    ∀ solver : Problem → (Var → ℚ),
      generateShifts employees desiredA required solver =
        generateShifts employees desiredB required solver := by
  have hds : ∀ e ∈ employees, ∀ t ∈ slotList,
      (t ∈ dsD desiredA e ↔ t ∈ dsD desiredB e) := by
    intro e he t ht
    obtain ⟨l1, l2, h1, h2, hiff⟩ := hagree e he
    rw [dsD, dsD, h1, h2]
    exact hiff t ht
  have hfilter : ∀ e ∈ employees,
      slotList.filter (fun t => t ∈ dsD desiredA e) =
        slotList.filter (fun t => t ∈ dsD desiredB e) := by
    intro e he
    apply List.filter_congr
    intro t ht
    exact decide_eq_decide.mpr (hds e he t ht)
  have hfilterN : ∀ e ∈ employees,
      slotList.filter (fun t => ¬ t ∈ dsD desiredA e) =
        slotList.filter (fun t => ¬ t ∈ dsD desiredB e) := by
    intro e he
    apply List.filter_congr
    intro t ht
    exact decide_eq_decide.mpr (not_congr (hds e he t ht))
  have hobj : objTermsOf employees (dsD desiredA) = objTermsOf employees (dsD desiredB) := by
    unfold objTermsOf desiredTermsOf
    congr 1
    apply listFlatMap_congr
    intro e he
    rw [hfilter e he]
  have hcon : constrsOf employees (dsD desiredA) (reqD required) =
      constrsOf employees (dsD desiredB) (reqD required) := by
    unfold constrsOf prefConstrsOf
    congr 1
    apply listFlatMap_congr
    intro e he
    rw [hfilterN e he]
  have hguardA : employees.all (fun e => (desiredA e).isSome) = true := by
    apply List.all_eq_true.mpr
    intro e he
    obtain ⟨l1, _, h1, _, _⟩ := hagree e he
    simp [h1]
  have hguardB : employees.all (fun e => (desiredB e).isSome) = true := by
    apply List.all_eq_true.mpr
    intro e he
    obtain ⟨_, l2, _, h2, _⟩ := hagree e he
    simp [h2]
  have hbuild : buildProblem employees desiredA required =
      buildProblem employees desiredB required := by
    unfold buildProblem
    rw [hguardA, hguardB]
    have hA : (fun e => (desiredA e).getD []) = dsD desiredA := rfl
    have hB : (fun e => (desiredB e).getD []) = dsD desiredB := rfl
    have hR : (fun t => (lookupReq required t).getD 0) = reqD required := rfl
    rw [hA, hB, hR, hobj, hcon]
  refine ⟨hbuild, ?_⟩
  intro solver
  unfold generateShifts
  rw [hbuild]

/-- C10 witness: adding an out-of-grid desired slot (day 31) changes neither
the model nor the returned tables. -/
theorem c10_witness :
    buildProblem employees1 desired1 required0 =
      buildProblem employees1 desired10 required0 ∧
    generateShifts employees1 desired1 required0 (fun _ => sol0) =
      generateShifts employees1 desired10 required0 (fun _ => sol0) := by
  have hagree : ∀ e ∈ employees1, ∃ l1 l2, desired1 e = some l1 ∧ desired10 e = some l2 ∧
      ∀ t ∈ slotList, (t ∈ l1 ↔ t ∈ l2) := by
    intro e _
    exact ⟨[(1, ShiftType.Morning)],
      [(1, ShiftType.Morning), (31, ShiftType.Morning)], rfl, rfl, by decide⟩
  have h := c10_grid_only employees1 desired1 desired10 required0 hagree
  exact ⟨h.1, h.2 (fun _ => sol0)⟩
